import Mathlib

/-!
Shallow embedding of the `ink-notex` terminal TODO application
(`src/persist.js`, `src/ui.js`) and proofs about its specification.

JavaScript runtime values that tasks can hold after JSON parsing are
modelled by `JValue`; machine integers of JS are modelled by `Int`
(the program only manipulates epoch-millisecond timestamps and ids,
far below 2^53, so no overflow modelling is needed).  `Date.now()` is
passed in explicitly as a `now : Nat` argument wherever the source
calls it.  File-system reads are modelled by `FileRead`
(missing file / unreadable-or-malformed content / parsed JSON document).
-/

namespace InkNotex

/-- JSON values as produced by `JSON.parse` (no `undefined` inside). -/
inductive JValue where
  | null
  | bool (b : Bool)
  | num (n : Int)
  | str (s : String)
  | arr (elts : List JValue)
  | obj (fields : List (String × JValue))

/-- JS truthiness of a `JValue` (objects and arrays are always truthy;
`NaN` does not arise in this model). -/
def jsTruthy : JValue → Bool
  | .null => false
  | .bool b => b
  | .num n => !(n == 0)
  | .str s => !(s == "")
  | .arr _ => true
  | .obj _ => true

/-- JS property access `v[k]`: `none` models `undefined`.  `JSON.parse`
keeps the last of duplicate keys, hence the reverse lookup. -/
def jgetField : JValue → String → Option JValue
  | .obj fields, k => (fields.reverse.find? (fun p => p.1 == k)).map (fun p => p.2)
  | _, _ => none

/-- JS `x || y` where `x` may be `undefined` (`none`). -/
def jsOr (x : Option JValue) (y : JValue) : JValue :=
  match x with
  | some v => if jsTruthy v then v else y
  | none => y

mutual

/-- JS `String(v)` conversion. -/
def jsToString : JValue → String
  | .null => "null"
  | .bool b => if b then "true" else "false"
  | .num n => toString n
  | .str s => s
  | .arr l => String.intercalate "," (jsToStringList l)
  | .obj _ => "[object Object]"

/-- `Array.prototype.toString` converts elements with `join(',')`,
where a `null` element becomes the empty string. -/
def jsToStringList : List JValue → List String
  | [] => []
  | .null :: vs => "" :: jsToStringList vs
  | v :: vs => jsToString v :: jsToStringList vs

end

/-- The set matched by the JS regex `\s` (also the set removed by
`String.prototype.trim`). -/
def jsWS (c : Char) : Bool :=
  c == ' ' || c == '\t' || c == '\n' || c.toNat == 11 || c.toNat == 12 || c == '\r' ||
  c.toNat == 0xa0 || c.toNat == 0x1680 ||
  (0x2000 ≤ c.toNat && c.toNat ≤ 0x200a) ||
  c.toNat == 0x2028 || c.toNat == 0x2029 || c.toNat == 0x202f ||
  c.toNat == 0x205f || c.toNat == 0x3000 || c.toNat == 0xfeff

/-- Remove the maximal trailing whitespace run (`.replace(/\s+$/, '')`). -/
def dropTrailingWS (l : List Char) : List Char :=
  (l.reverse.dropWhile jsWS).reverse

/-- Remove the maximal trailing non-whitespace run (`.replace(/\S+$/, '')`). -/
def dropTrailingNonWS (l : List Char) : List Char :=
  (l.reverse.dropWhile (fun c => !jsWS c)).reverse

/-- JS `String.prototype.trim`. -/
def jsTrimL (l : List Char) : List Char :=
  dropTrailingWS (l.dropWhile jsWS)

/-- JS `String.prototype.trim` on `String`. -/
def jsTrim (s : String) : String :=
  ⟨jsTrimL s.data⟩

/-! ## `src/persist.js` -/

/-- An in-memory task.  After `loadTasks` coercion `id` is a number or a
string, `text` a string, `done` a boolean; `createdAt` and `completedAt`
keep whatever (truthy) JSON value the file held, so they stay `JValue`. -/
structure Task where
  id : JValue
  text : String
  done : Bool
  createdAt : JValue
  completedAt : JValue

/-- Outcome of reading the task file: the file is absent, its content is
empty/whitespace-only or not valid JSON (`JSON.parse` throws), or it
parses to a JSON document. -/
inductive FileRead where
  | missing
  | invalid
  | parsed (v : JValue)

/-- Coercion of one raw record, from `loadTasks` in `src/persist.js`:
`id` kept when number/string else defaulted to `now`; `text` is
`String(t.text || '')`; `done` is `Boolean(t.done)`;
`createdAt` is `t.createdAt || now`;
`completedAt` is `t.done ? (t.completedAt || now) : null`.
A `null` record makes the property accesses throw a `TypeError`
(`none` here), which the caller's `try` turns into `[]`. -/
def coerceFields (now : Nat) (t : JValue) : Task :=
  { id := match jgetField t "id" with
          | some (.num n) => .num n
          | some (.str s) => .str s
          | _ => .num (now : Int)
    text := jsToString (jsOr (jgetField t "text") (.str ""))
    done := jsTruthy (jsOr (jgetField t "done") (.bool false))
    createdAt := jsOr (jgetField t "createdAt") (.num (now : Int))
    completedAt :=
      if jsTruthy (jsOr (jgetField t "done") (.bool false)) then
        jsOr (jgetField t "completedAt") (.num (now : Int))
      else
        .null }

def coerceTask (now : Nat) : JValue → Option Task
  | .null => none
  | t => some (coerceFields now t)

/-- `loadTasks` from `src/persist.js`: missing file, blank content and
malformed JSON all yield `[]`; a bare array or a truthy value with a
`tasks` array field is the raw task list, anything else yields `[]`;
each raw record is coerced, and a thrown coercion (`null` record) is
caught by the surrounding `try`, yielding `[]`. -/
def loadTasks (now : Nat) : FileRead → List Task
  | .missing => []
  | .invalid => []
  | .parsed data =>
    let tasksRaw : List JValue :=
      match data with
      | .arr l => l
      | _ =>
        match (if jsTruthy data then jgetField data "tasks" else none) with
        | some (.arr l) => l
        | _ => []
    match tasksRaw.mapM (coerceTask now) with
    | some ts => ts
    | none => []

/-- Serialization of one task by `JSON.stringify` (fields in insertion
order, as constructed by `loadTasks` and by the add handler). -/
def taskToJValue (t : Task) : JValue :=
  .obj [("id", t.id), ("text", .str t.text), ("done", .bool t.done),
        ("createdAt", t.createdAt), ("completedAt", t.completedAt)]

/-- The JSON document written by `saveTasks`: `{ tasks: [...] }`. -/
def saveDoc (tasks : List Task) : JValue :=
  .obj [("tasks", .arr (tasks.map taskToJValue))]

/-! ## `src/ui.js` — text line editor helpers -/

/-- `clamp` from `src/ui.js`: `Math.max(min, Math.min(max, n))`. -/
def clamp (n lo hi : Nat) : Nat :=
  max lo (min hi n)

/-- `deleteLastWord` from `src/ui.js`: empty text is returned as is;
otherwise trailing whitespace is trimmed, the trailing non-whitespace
run removed, and trailing whitespace trimmed again. -/
def deleteLastWord (text : List Char) : List Char :=
  if text = [] then text
  else dropTrailingWS (dropTrailingNonWS (dropTrailingWS text))

/-- The Ctrl+W handler of `useTextInput`: split the buffer at the
cursor, apply `deleteLastWord` to the part before the cursor, move the
cursor to the end of the shortened part, keep the part after. -/
def ctrlW (v : List Char) (cursor : Nat) : List Char × Nat :=
  let before := v.take cursor
  let after := v.drop cursor
  let trimmed := deleteLastWord before
  (trimmed ++ after, trimmed.length)

/-- First `while` of the Ctrl+Left handler:
`while (i > 0 && /\s/.test(s[i])) i--`. -/
def skipWSBack (s : List Char) : Nat → Nat
  | 0 => 0
  | i + 1 => if jsWS (s.getD (i + 1) ' ') then skipWSBack s i else i + 1

/-- Second `while` of the Ctrl+Left handler:
`while (i > 0 && /\S/.test(s[i - 1])) i--`. -/
def skipWordBack (s : List Char) : Nat → Nat
  | 0 => 0
  | i + 1 => if !jsWS (s.getD i ' ') then skipWordBack s i else i + 1

/-- The Ctrl+Left (word-left) handler: start at `max(0, pos - 1)`,
skip whitespace backward, then skip the non-whitespace run backward. -/
def wordLeft (s : List Char) (pos : Nat) : Nat :=
  skipWordBack s (skipWSBack s (pos - 1))

/-- First `while` of the Ctrl+Right handler:
`while (i < s.length && /\s/.test(s[i])) i++`. -/
def skipWSFwd (s : List Char) (i : Nat) : Nat :=
  if h : i < s.length ∧ jsWS (s.getD i ' ') then skipWSFwd s (i + 1) else i
termination_by s.length - i
decreasing_by
  omega

/-- Second `while` of the Ctrl+Right handler:
`while (i < s.length && /\S/.test(s[i])) i++`. -/
def skipWordFwd (s : List Char) (i : Nat) : Nat :=
  if h : i < s.length ∧ !jsWS (s.getD i ' ') then skipWordFwd s (i + 1) else i
termination_by s.length - i
decreasing_by
  omega

/-- The Ctrl+Right (word-right) handler: start at
`min(s.length, pos + 1)`, skip whitespace forward, then skip the
non-whitespace run forward. -/
def wordRight (s : List Char) (pos : Nat) : Nat :=
  skipWordFwd s (skipWSFwd s (min (s.length) (pos + 1)))

/-! ## `src/ui.js` — application state machine -/

/-- The application mode enum. -/
inductive Mode where
  | list | add | edit | help | settings
deriving DecidableEq, Repr

/-- The two storage locations. -/
inductive Storage where
  | project | global
deriving DecidableEq, Repr

/-- The mutable state of the `App` component that the claims are
about: task collection, undo/redo stacks, selection, mode, the index
being edited, storage choice, settings selection, and the two text
input buffers with their cursors. -/
structure AppState where
  tasks : List Task
  history : List (List Task)
  future : List (List Task)
  selected : Nat
  mode : Mode
  editingIndex : Option Nat
  storage : Storage
  settingsIndex : Nat
  addValue : String
  addCursor : Nat
  editValue : String
  editCursor : Nat

/-- `selectedSafe`: the selection clamped to `[0, len - 1]` (`0` when
the collection is empty). -/
def selectedSafe (s : AppState) : Nat :=
  clamp s.selected 0 (max (s.tasks.length - 1) 0)

/-- The history push inside `applyChange`:
`(h.length > 300 ? h.slice(-300) : h).concat([tasks])`. -/
def pushHistory (h : List (List Task)) (t : List Task) : List (List Task) :=
  (if h.length > 300 then h.drop (h.length - 300) else h) ++ [t]

/-- `applyChange(nextTasks)`: push the pre-mutation collection onto
history, clear the future stack, install the new collection (the
synchronous `saveTasks` side effect has no bearing on the state). -/
def applyChange (next : List Task) (s : AppState) : AppState :=
  { s with history := pushHistory s.history s.tasks
           future := []
           tasks := next }

/-- `undo()`: no-op on empty history, else pop the top snapshot,
push the current collection onto future, restore the snapshot. -/
def undo (s : AppState) : AppState :=
  match s.history.getLast? with
  | none => s
  | some prev =>
    { s with tasks := prev
             future := s.future ++ [s.tasks]
             history := s.history.dropLast }

/-- `redo()`: no-op on empty future, else pop the top snapshot,
push the current collection onto history, restore the snapshot. -/
def redo (s : AppState) : AppState :=
  match s.future.getLast? with
  | none => s
  | some next =>
    { s with tasks := next
             history := s.history ++ [s.tasks]
             future := s.future.dropLast }

/-- JS `Array.prototype.map` with the element index. -/
def jsMapIdx (f : Nat → α → α) (l : List α) : List α :=
  go 0 l
where
  go : Nat → List α → List α
    | _, [] => []
    | i, x :: xs => f i x :: go (i + 1) xs

/-- JS `Array.prototype.filter` with the element index. -/
def jsFilterIdx (p : Nat → α → Bool) (l : List α) : List α :=
  go 0 l
where
  go : Nat → List α → List α
    | _, [] => []
    | i, x :: xs => if p i x then x :: go (i + 1) xs else go (i + 1) xs

/-- The per-element function of the Space toggle `map`: the task at
index `sel` gets `done` flipped and `completedAt` set to the toggle
time on a false→true transition, to `null` on true→false (`!t.done`
reads the pre-toggle flag, as in the source). -/
def toggleOne (now : Nat) (sel : Nat) (i : Nat) (t : Task) : Task :=
  if i = sel then
    { t with done := !t.done
             completedAt := if !t.done then .num (now : Int) else .null }
  else t

/-- The collection produced by the Space toggle on index `sel` at time
`now`. -/
def toggleTasks (now : Nat) (sel : Nat) (tasks : List Task) : List Task :=
  jsMapIdx (toggleOne now sel) tasks

/-- The list-mode Space handler: toggles the selected task when the
collection is nonempty, through `applyChange`. -/
def onSpace (now : Nat) (s : AppState) : AppState :=
  if s.mode ≠ .list then s
  else if s.tasks.length > 0 then
    applyChange (toggleTasks now (selectedSafe s) s.tasks) s
  else s

/-- The task constructed by the add handler at time `now`. -/
def newTask (now : Nat) (text : String) : Task :=
  { id := .num (now : Int), text := text, done := false
    createdAt := .num (now : Int), completedAt := .null }

/-- The add-mode `onSubmit` handler, fed `value.trim()` by the Enter
branch of `useTextInput`: when the trimmed text is nonempty, append a
new task through `applyChange` and select it; in all cases reset the
add buffer and its cursor.  The mode is not changed. -/
def addSubmit (now : Nat) (s : AppState) : AppState :=
  if s.mode ≠ .add then s
  else
    let text := jsTrim s.addValue
    let s1 :=
      if text ≠ "" then
        { applyChange (s.tasks ++ [newTask now text]) s with selected := s.tasks.length }
      else s
    { s1 with addValue := "", addCursor := 0 }

/-- The per-element function of the edit-submit `map`: the task at
`editingIndex` gets the submitted text, or keeps its old text when the
submitted text is empty (`text || t.text`). -/
def editOne (editingIndex : Option Nat) (text : String) (i : Nat) (t : Task) : Task :=
  if some i = editingIndex then
    { t with text := if text = "" then t.text else text }
  else t

/-- The collection produced by the edit submit. -/
def editTasks (editingIndex : Option Nat) (text : String) (tasks : List Task) : List Task :=
  jsMapIdx (editOne editingIndex text) tasks

/-- The edit-mode `onSubmit` handler, fed `value.trim()` by the Enter
branch of `useTextInput`: apply the text mutation through
`applyChange`, return to list mode, clear `editingIndex`. -/
def editSubmit (s : AppState) : AppState :=
  if s.mode ≠ .edit then s
  else
    let text := jsTrim s.editValue
    { applyChange (editTasks s.editingIndex text s.tasks) s with
        mode := .list, editingIndex := none }

/-- The list-mode `d` handler: delete the selected task through
`applyChange` (when the collection is nonempty) and re-clamp the
selection to the new collection. -/
def onDelete (s : AppState) : AppState :=
  if s.mode ≠ .list then s
  else if s.tasks.length > 0 then
    let next := jsFilterIdx (fun i _ => i != selectedSafe s) s.tasks
    { applyChange next s with selected := clamp s.selected 0 (max (next.length - 1) 0) }
  else s

/-- The settings-mode Enter handler: commit the highlighted storage
location; when it differs from the current one, push the current
collection onto history (unbounded `concat`), clear the future stack,
switch storage and replace the collection with the one loaded from the
new location's file (at time `now`); always return to list mode. -/
def settingsEnter (now : Nat) (files : Storage → FileRead) (s : AppState) : AppState :=
  if s.mode ≠ .settings then s
  else
    let nextStorage := if s.settingsIndex = 0 then Storage.project else Storage.global
    let s1 :=
      if nextStorage ≠ s.storage then
        { s with history := s.history ++ [s.tasks]
                 future := []
                 storage := nextStorage
                 tasks := loadTasks now (files nextStorage) }
      else s
    { s1 with mode := .list }

/-- The list-mode `a` / `e` / Enter handlers and Esc cancels, as far
as they affect mode, `editingIndex` and the edit buffer seed. -/
def enterAdd (s : AppState) : AppState :=
  if s.mode = .list then { s with mode := .add } else s

/-- Entering edit mode (`e` or Enter on a nonempty collection): set
`editingIndex` to the safe selection; the effect hook then seeds the
edit buffer with the task's text and puts the cursor at its end. -/
def enterEdit (s : AppState) : AppState :=
  if s.mode = .list ∧ s.tasks.length > 0 then
    let idx := selectedSafe s
    { s with mode := .edit, editingIndex := some idx
             editValue := ((s.tasks.get? idx).map Task.text).getD ""
             editCursor := (((s.tasks.get? idx).map Task.text).getD "").length }
  else s

/-- Esc in add or edit mode: discard and return to list. -/
def cancelInput (s : AppState) : AppState :=
  if s.mode = .add then { s with mode := .list }
  else if s.mode = .edit then { s with mode := .list, editingIndex := none }
  else s

/-- The `o` handler: open settings with the current storage highlighted. -/
def openSettings (s : AppState) : AppState :=
  if s.mode = .add ∨ s.mode = .edit then s
  else { s with mode := .settings
                settingsIndex := if s.storage = .project then 0 else 1 }

/-- One public operation of the application, as listed in the claims:
toggle, add-submit, edit-submit, delete, undo, redo, storage switch
(reloading from disk), together with the mode/selection/typing actions
that make those reachable.  Typing is abstracted to setting the active
buffer, which any character sequence can produce. -/
inductive Act where
  | space (now : Nat)
  | submitAdd (now : Nat)
  | submitEdit
  | del
  | undoKey
  | redoKey
  | commitSettings (now : Nat) (files : Storage → FileRead)
  | keyA
  | keyE
  | keyO
  | escape
  | typeAdd (buffer : String)
  | typeEdit (buffer : String)
  | moveSel (up : Bool)
  | moveSettings (up : Bool)

/-- Step function of the application state machine. -/
def step (a : Act) (s : AppState) : AppState :=
  match a with
  | .space now => onSpace now s
  | .submitAdd now => addSubmit now s
  | .submitEdit => editSubmit s
  | .del => onDelete s
  | .undoKey => if s.mode = .add ∨ s.mode = .edit then s else undo s
  | .redoKey => if s.mode = .add ∨ s.mode = .edit then s else redo s
  | .commitSettings now files => settingsEnter now files s
  | .keyA => enterAdd s
  | .keyE => enterEdit s
  | .keyO => openSettings s
  | .escape => cancelInput s
  | .typeAdd buffer => if s.mode = .add then { s with addValue := buffer } else s
  | .typeEdit buffer => if s.mode = .edit then { s with editValue := buffer } else s
  | .moveSel up =>
    if s.mode = .list then
      { s with selected := clamp (if up then s.selected - 1 else s.selected + 1)
                 0 (max (s.tasks.length - 1) 0) }
    else s
  | .moveSettings up =>
    if s.mode = .settings then
      { s with settingsIndex := clamp (if up then s.settingsIndex - 1 else s.settingsIndex + 1) 0 1 }
    else s

/-- Run a sequence of actions, oldest first. -/
def runActs (acts : List Act) (s : AppState) : AppState :=
  acts.foldl (fun st a => step a st) s

/-- The startup state of `App` (from `index.js` and the `useState`
initializers): the collection comes from the preferred file, falling
back to `initialTasks` (itself a `loadTasks` result) when that load is
empty; history and future start empty, mode is `list`. -/
def initState (now : Nat) (preferred : FileRead) (now' : Nat) (boot : FileRead) : AppState :=
  let loaded := loadTasks now preferred
  { tasks := if loaded.length ≠ 0 then loaded else loadTasks now' boot
    history := []
    future := []
    selected := 0
    mode := .list
    editingIndex := none
    storage := .project
    settingsIndex := 0
    addValue := ""
    addCursor := 0
    editValue := ""
    editCursor := 0 }

/-! ## Specification-level predicates -/

/-- A cursor position that sits on a whitespace/non-whitespace
boundary of the buffer, or at a buffer edge (`0` or the length) — the
landing set claimed for the word-navigation handlers. -/
def isBoundary (s : List Char) (i : Nat) : Prop :=
  i = 0 ∨ i = s.length ∨ jsWS (s.getD (i - 1) ' ') ≠ jsWS (s.getD i ' ')

instance (s : List Char) (i : Nat) : Decidable (isBoundary s i) := by
  unfold isBoundary
  infer_instance

/-- The per-task precondition of C7, following the claim's wording
("all five fields populated with values of the persisted types"), with
the one amendment the counterexample forces: `completedAt`, like
`createdAt`, must be a truthy (nonzero) epoch-ms number when `done` is
true. -/
def PersistedShape (t : Task) : Prop :=
  ((∃ n : Int, t.id = .num n) ∨ (∃ s : String, t.id = .str s)) ∧
  (∃ c : Int, c ≠ 0 ∧ t.createdAt = .num c) ∧
  (t.done = true → ∃ m : Int, m ≠ 0 ∧ t.completedAt = .num m) ∧
  (t.done = false → t.completedAt = .null)

/-- The C1 invariant on a task collection: `completedAt` is non-null
iff `done` is true. -/
def TasksInv (ts : List Task) : Prop :=
  ∀ t ∈ ts, (t.completedAt ≠ JValue.null ↔ t.done = true)

/-- The C1 invariant extended to the whole application state: it holds
for the live collection and for every snapshot on the undo and redo
stacks. -/
def StateInv (s : AppState) : Prop :=
  TasksInv s.tasks ∧ (∀ h ∈ s.history, TasksInv h) ∧ (∀ f ∈ s.future, TasksInv f)

/-! ## Helper lemmas -/

theorem pushHistory_length (h : List (List Task)) (t : List Task) :
    (pushHistory h t).length = min (h.length + 1) 301 := by
  unfold pushHistory
  by_cases hc : h.length > 300
  · rw [if_pos hc, List.length_append, List.length_drop]
    simp only [List.length_cons, List.length_nil]
    omega
  · rw [if_neg hc, List.length_append]
    simp only [List.length_cons, List.length_nil]
    omega

theorem mem_pushHistory {x : List Task} {h : List (List Task)} {t : List Task}
    (hx : x ∈ pushHistory h t) : x ∈ h ∨ x = t := by
  unfold pushHistory at hx
  rcases List.mem_append.mp hx with h1 | h1
  · by_cases hc : h.length > 300
    · rw [if_pos hc] at h1
      exact Or.inl (List.mem_of_mem_drop h1)
    · rw [if_neg hc] at h1
      exact Or.inl h1
  · exact Or.inr (List.mem_singleton.mp h1)

theorem applyChange_history_foldl_length (nexts : List (List Task)) :
    ∀ s : AppState,
      (nexts.foldl (fun st nx => applyChange nx st) s).history.length =
        if nexts.length = 0 then s.history.length
        else min (s.history.length + nexts.length) 301 := by
  induction nexts with
  | nil => intro s; simp
  | cons nx nexts ih =>
    intro s
    rw [List.foldl_cons, ih]
    have hlen : (applyChange nx s).history.length = min (s.history.length + 1) 301 :=
      pushHistory_length s.history s.tasks
    rw [List.length_cons]
    by_cases h0 : nexts.length = 0
    · rw [if_pos h0, if_neg (by omega), hlen, h0]
    · rw [if_neg h0, if_neg (by omega), hlen]
      omega

/-! ## Claim theorems -/

/-- C2: For every application state and every mutation applied through
`applyChange` (the toggle, add, edit-text and delete handlers all pass
their new collection to `applyChange`), `undo` immediately afterwards
restores exactly the pre-mutation task collection, and `redo`
immediately after that undo restores the mutated collection. -/
theorem c2_undo_redo_roundtrip (s : AppState) (next : List Task) :
    (undo (applyChange next s)).tasks = s.tasks ∧
    (redo (undo (applyChange next s))).tasks = next := by
  have h1 : (applyChange next s).history = pushHistory s.history s.tasks := rfl
  have hglast : (pushHistory s.history s.tasks).getLast? = some s.tasks := by
    unfold pushHistory; exact List.getLast?_concat _
  constructor
  · unfold undo
    rw [h1, hglast]
  · unfold undo
    rw [h1, hglast]
    show (redo { applyChange next s with
        tasks := s.tasks
        future := (applyChange next s).future ++ [(applyChange next s).tasks]
        history := (pushHistory s.history s.tasks).dropLast }).tasks = next
    unfold redo
    have h2 : (applyChange next s).future = [] := rfl
    have h3 : (applyChange next s).tasks = next := rfl
    simp only [h2, h3, List.nil_append, List.getLast?_singleton]

/-- C3 (amended): each mutation through `applyChange` pushes the
pre-mutation collection onto history; when the stack already holds
more than 300 entries it is first trimmed to its newest 300, so the
stack can reach — and never exceeds — 301 entries.  First conjunct:
the exact length law of the push.  Second conjunct: along any sequence
of `applyChange` mutations from a state within the bound, the history
stays within 301 entries. -/
theorem c3_history_bound :
    (∀ (h : List (List Task)) (t : List Task),
      (pushHistory h t).length = min (h.length + 1) 301) ∧
    (∀ (nexts : List (List Task)) (s : AppState), s.history.length ≤ 301 →
      ((nexts.foldl (fun st nx => applyChange nx st) s).history.length ≤ 301)) := by
  refine ⟨pushHistory_length, ?_⟩
  intro nexts s hs
  rw [applyChange_history_foldl_length]
  by_cases h0 : nexts.length = 0
  · rw [if_pos h0]; omega
  · rw [if_neg h0]; omega

/-- C3 witness: the push law and the bound evaluated at the startup
state after one mutation. -/
theorem c3_history_bound_witness :
    (pushHistory [] []).length = min (0 + 1) 301 ∧
    (([[]] : List (List Task)).foldl (fun st nx => applyChange nx st)
      (initState 1 .missing 1 .missing)).history.length ≤ 301 :=
  ⟨c3_history_bound.1 [] [],
   c3_history_bound.2 [[]] (initState 1 .missing 1 .missing) (by decide)⟩

/-- C3 counterexample: 301 consecutive mutations from the startup
state (empty history) leave 301 entries on the history stack, so the
stack does exceed 300 entries and the push that creates the 301st
entry does not evict anything. -/
theorem c3_counterexample :
    ((List.replicate 301 ([] : List Task)).foldl (fun st nx => applyChange nx st)
      (initState 1 .missing 1 .missing)).history.length = 301 := by
  rw [applyChange_history_foldl_length]
  have h1 : (initState 1 .missing 1 .missing).history.length = 0 := rfl
  have h2 : (List.replicate 301 ([] : List Task)).length = 301 :=
    List.length_replicate 301 []
  rw [h2, h1, if_neg (by omega)]
  omega

/-- C8: the Ctrl+W handler applies `deleteLastWord` — trim trailing
whitespace, drop the trailing non-whitespace run, trim trailing
whitespace again — to the part of the buffer before the cursor, moves
the cursor to the end of that result, and keeps the text after the
original cursor position unchanged; on `"hello world "` with the
cursor at the end it yields `"hello"` with the cursor at 5. -/
theorem c8_ctrlW_deleteWordBackward :
    (∀ (v : List Char) (c : Nat),
      (ctrlW v c).1.drop (ctrlW v c).2 = v.drop c ∧
      (ctrlW v c).1.take (ctrlW v c).2 = deleteLastWord (v.take c) ∧
      (ctrlW v c).2 = (deleteLastWord (v.take c)).length ∧
      deleteLastWord (v.take c) =
        dropTrailingWS (dropTrailingNonWS (dropTrailingWS (v.take c)))) ∧
    ctrlW "hello world ".data 12 = ("hello".data, 5) := by
  constructor
  · intro v c
    refine ⟨?_, ?_, rfl, ?_⟩
    · show (deleteLastWord (v.take c) ++ v.drop c).drop (deleteLastWord (v.take c)).length
          = v.drop c
      exact List.drop_left _ _
    · show (deleteLastWord (v.take c) ++ v.drop c).take (deleteLastWord (v.take c)).length
          = deleteLastWord (v.take c)
      exact List.take_left _ _
    · unfold deleteLastWord
      by_cases h : v.take c = []
      · rw [if_pos h, h]; rfl
      · rw [if_neg h]
  · set_option maxRecDepth 4000 in decide

theorem jsMapIdx_go_length (f : Nat → α → α) :
    ∀ (l : List α) (n : Nat), (jsMapIdx.go f n l).length = l.length := by
  intro l
  induction l with
  | nil => intro n; rfl
  | cons x xs ih => intro n; simp [jsMapIdx.go, ih]

theorem jsMapIdx_length (f : Nat → α → α) (l : List α) :
    (jsMapIdx f l).length = l.length :=
  jsMapIdx_go_length f l 0

theorem jsMapIdx_go_get (f : Nat → α → α) :
    ∀ (l : List α) (n i : Nat) (h : i < l.length)
      (h2 : i < (jsMapIdx.go f n l).length),
      (jsMapIdx.go f n l).get ⟨i, h2⟩ = f (n + i) (l.get ⟨i, h⟩) := by
  intro l
  induction l with
  | nil => intro n i h h2; exact absurd h (by simp)
  | cons x xs ih =>
    intro n i h h2
    cases i with
    | zero => rfl
    | succ j =>
      have hj : j < xs.length := by simpa using h
      have hj2 : j < (jsMapIdx.go f (n + 1) xs).length := by
        rw [jsMapIdx_go_length]; exact hj
      show (jsMapIdx.go f (n + 1) xs).get ⟨j, hj2⟩ = _
      rw [ih (n + 1) j hj hj2]
      congr 1
      omega

theorem jsMapIdx_get (f : Nat → α → α) (l : List α) (i : Nat) (h : i < l.length)
    (h2 : i < (jsMapIdx f l).length) :
    (jsMapIdx f l).get ⟨i, h2⟩ = f i (l.get ⟨i, h⟩) := by
  have := jsMapIdx_go_get f l 0 i h h2
  simpa using this

theorem jsMapIdx_go_mem (f : Nat → α → α) :
    ∀ (l : List α) (n : Nat) (x : α), x ∈ jsMapIdx.go f n l →
      ∃ i y, y ∈ l ∧ x = f i y := by
  intro l
  induction l with
  | nil => intro n x hx; exact absurd hx (by simp [jsMapIdx.go])
  | cons z zs ih =>
    intro n x hx
    rcases List.mem_cons.mp hx with h1 | h1
    · exact ⟨n, z, List.mem_cons_self z zs, h1⟩
    · obtain ⟨i, y, hy, hxy⟩ := ih (n + 1) x h1
      exact ⟨i, y, List.mem_cons_of_mem z hy, hxy⟩

theorem jsMapIdx_mem (f : Nat → α → α) (l : List α) (x : α)
    (hx : x ∈ jsMapIdx f l) : ∃ i y, y ∈ l ∧ x = f i y :=
  jsMapIdx_go_mem f l 0 x hx

theorem jsFilterIdx_go_mem (p : Nat → α → Bool) :
    ∀ (l : List α) (n : Nat) (x : α), x ∈ jsFilterIdx.go p n l → x ∈ l := by
  intro l
  induction l with
  | nil => intro n x hx; exact absurd hx (by simp [jsFilterIdx.go])
  | cons z zs ih =>
    intro n x hx
    unfold jsFilterIdx.go at hx
    by_cases hc : p n z
    · rw [if_pos hc] at hx
      rcases List.mem_cons.mp hx with h1 | h1
      · exact h1 ▸ List.mem_cons_self z zs
      · exact List.mem_cons_of_mem z (ih (n + 1) x h1)
    · rw [if_neg hc] at hx
      exact List.mem_cons_of_mem z (ih (n + 1) x hx)

theorem jsFilterIdx_mem (p : Nat → α → Bool) (l : List α) (x : α)
    (hx : x ∈ jsFilterIdx p l) : x ∈ l :=
  jsFilterIdx_go_mem p l 0 x hx

theorem jsMapIdx_go_id (f : Nat → α → α) (hf : ∀ i x, f i x = x) :
    ∀ (l : List α) (n : Nat), jsMapIdx.go f n l = l := by
  intro l
  induction l with
  | nil => intro n; rfl
  | cons x xs ih =>
    intro n
    show f n x :: jsMapIdx.go f (n + 1) xs = x :: xs
    rw [hf, ih]

/-- C4 (amended): pressing Enter in edit mode submits the trimmed edit
buffer through the text-input component, applies the edit mutation via
`applyChange` and transitions back to list mode; pressing Enter in add
mode submits the trimmed add buffer and, when it is nonempty, appends
the new task via `applyChange`, but the mode stays `add` with the
input buffer and cursor reset (only Esc returns to list). -/
theorem c4_submit_transitions (s : AppState) (now : Nat) :
    (s.mode = .edit →
      (editSubmit s).mode = .list ∧
      (editSubmit s).editingIndex = none ∧
      (editSubmit s).tasks = editTasks s.editingIndex (jsTrim s.editValue) s.tasks ∧
      (editSubmit s).history = pushHistory s.history s.tasks) ∧
    (s.mode = .add →
      (addSubmit now s).mode = .add ∧
      (addSubmit now s).addValue = "" ∧
      (addSubmit now s).addCursor = 0 ∧
      (jsTrim s.addValue ≠ "" →
        (addSubmit now s).tasks = s.tasks ++ [newTask now (jsTrim s.addValue)] ∧
        (addSubmit now s).history = pushHistory s.history s.tasks)) := by
  constructor
  · intro hm
    unfold editSubmit
    rw [if_neg (by simp [hm])]
    exact ⟨rfl, rfl, rfl, rfl⟩
  · intro hm
    unfold addSubmit
    rw [if_neg (by simp [hm])]
    by_cases ht : jsTrim s.addValue = ""
    · simp [ht, hm]
    · simp [ht, hm, applyChange]

/-- C4 witness: the transitions evaluated on a concrete state in edit
mode and on a concrete state in add mode with buffer `"x"`. -/
theorem c4_submit_transitions_witness :
    (let se := { initState 1 .missing 1 .missing with
                   mode := Mode.edit, editingIndex := some 0, editValue := "x" }
     (editSubmit se).mode = .list ∧
     (editSubmit se).editingIndex = none ∧
     (editSubmit se).tasks = editTasks se.editingIndex (jsTrim se.editValue) se.tasks ∧
     (editSubmit se).history = pushHistory se.history se.tasks) ∧
    (let sa := { initState 1 .missing 1 .missing with
                   mode := Mode.add, addValue := "x" }
     (addSubmit 5 sa).mode = .add ∧
     (addSubmit 5 sa).addValue = "" ∧
     (addSubmit 5 sa).addCursor = 0 ∧
     (jsTrim sa.addValue ≠ "" →
       (addSubmit 5 sa).tasks = sa.tasks ++ [newTask 5 (jsTrim sa.addValue)] ∧
       (addSubmit 5 sa).history = pushHistory sa.history sa.tasks)) :=
  ⟨(c4_submit_transitions _ 5).1 rfl, (c4_submit_transitions _ 5).2 rfl⟩

/-- C4 counterexample: in add mode with buffer `"x"`, pressing Enter
submits and applies the mutation but does not transition back to list
mode — the mode is still `add`. -/
theorem c4_counterexample :
    (addSubmit 5 { initState 1 .missing 1 .missing with
                     mode := Mode.add, addValue := "x" }).mode ≠ Mode.list := by
  intro h
  exact Mode.noConfusion ((rfl : (addSubmit 5 { initState 1 .missing 1 .missing with
    mode := Mode.add, addValue := "x" }).mode = Mode.add) ▸ h)

/-- C5 (amended): committing a different storage location in settings
(Enter on a location other than the current one) pushes the current
task collection onto the undo history and clears the redo (future)
stack, then replaces the task collection with the collection loaded
from the newly selected location's file, and returns to list mode. -/
theorem c5_settings_commit (now : Nat) (files : Storage → FileRead) (s : AppState)
    (hm : s.mode = .settings)
    (hdiff : (if s.settingsIndex = 0 then Storage.project else Storage.global) ≠ s.storage) :
    (settingsEnter now files s).history = s.history ++ [s.tasks] ∧
    (settingsEnter now files s).future = [] ∧
    (settingsEnter now files s).tasks =
      loadTasks now (files (if s.settingsIndex = 0 then Storage.project else Storage.global)) ∧
    (settingsEnter now files s).storage =
      (if s.settingsIndex = 0 then Storage.project else Storage.global) ∧
    (settingsEnter now files s).mode = .list := by
  unfold settingsEnter
  rw [if_neg (by simp [hm])]
  simp [hdiff]

/-- C5 witness: the commit evaluated on a concrete settings-mode state
switching from project to global storage. -/
theorem c5_settings_commit_witness :
    (let s := { initState 1 .missing 1 .missing with
                  mode := Mode.settings, settingsIndex := 1,
                  future := [[newTask 1 "z"]] }
     (settingsEnter 9 (fun _ => FileRead.missing) s).history = s.history ++ [s.tasks] ∧
     (settingsEnter 9 (fun _ => FileRead.missing) s).future = [] ∧
     (settingsEnter 9 (fun _ => FileRead.missing) s).tasks =
       loadTasks 9 ((fun _ => FileRead.missing)
         (if s.settingsIndex = 0 then Storage.project else Storage.global)) ∧
     (settingsEnter 9 (fun _ => FileRead.missing) s).storage =
       (if s.settingsIndex = 0 then Storage.project else Storage.global) ∧
     (settingsEnter 9 (fun _ => FileRead.missing) s).mode = .list) :=
  c5_settings_commit 9 (fun _ => FileRead.missing) _ rfl (by decide)

/-- C5 counterexample: committing a storage switch from a state whose
redo stack is nonempty clears the redo stack — it is not left
unchanged as the claim states. -/
theorem c5_counterexample :
    (settingsEnter 9 (fun _ => FileRead.missing)
        { initState 1 .missing 1 .missing with
            mode := Mode.settings, settingsIndex := 1,
            future := [[newTask 1 "z"]] }).future ≠
      ({ initState 1 .missing 1 .missing with
            mode := Mode.settings, settingsIndex := 1,
            future := [[newTask 1 "z"]] } : AppState).future := by
  intro h
  exact List.noConfusion (h.symm.trans (rfl : (settingsEnter 9 (fun _ => FileRead.missing)
    { initState 1 .missing 1 .missing with
        mode := Mode.settings, settingsIndex := 1,
        future := [[newTask 1 "z"]] }).future = []))

/-- C6: `loadTasks` is total (it never raises an error to its caller:
every branch of the source is covered by the `try` and returns a
list).  A missing file, blank or malformed content, and a parsed value
that is neither an array nor carries a `tasks` array field all yield
the empty collection; a bare top-level array and an object with a
`tasks` array field are both accepted as task lists, and identically so. -/
theorem c6_loadTasks_error_tolerance (now : Nat) :
    loadTasks now .missing = [] ∧
    loadTasks now .invalid = [] ∧
    (∀ v : JValue, (∀ l, v ≠ .arr l) →
      (∀ l, jgetField v "tasks" ≠ some (.arr l)) →
      loadTasks now (.parsed v) = []) ∧
    (∀ l : List JValue,
      loadTasks now (.parsed (.arr l)) = (l.mapM (coerceTask now)).getD []) ∧
    (∀ l : List JValue,
      loadTasks now (.parsed (.obj [("tasks", .arr l)])) =
        loadTasks now (.parsed (.arr l))) := by
  refine ⟨rfl, rfl, ?_, ?_, ?_⟩
  · intro v h1 h2
    cases v with
    | arr l => exact absurd rfl (h1 l)
    | null => rfl
    | bool b => cases b <;> rfl
    | num n =>
      unfold loadTasks
      rcases h : (n == 0 : Bool) with _ | _ <;> (simp [jsTruthy, jgetField, h]; rfl)
    | str s =>
      unfold loadTasks
      rcases h : (s == "" : Bool) with _ | _ <;> (simp [jsTruthy, jgetField, h]; rfl)
    | obj fields =>
      unfold loadTasks
      rcases hg : jgetField (.obj fields) "tasks" with _ | v
      · simp [jsTruthy, hg]; rfl
      · cases v with
        | arr l => exact absurd hg (h2 l)
        | null => simp [jsTruthy, hg]; rfl
        | bool b => simp [jsTruthy, hg]; rfl
        | num n => simp [jsTruthy, hg]; rfl
        | str s => simp [jsTruthy, hg]; rfl
        | obj f2 => simp [jsTruthy, hg]; rfl
  · intro l
    have h1 : loadTasks now (.parsed (.arr l)) =
        (match l.mapM (coerceTask now) with
         | some ts => ts
         | none => []) := rfl
    rw [h1]
    rcases m : l.mapM (coerceTask now) with _ | ts
    · rfl
    · rfl
  · intro l
    rfl

/-- C6 witness: the branches of `loadTasks` evaluated at concrete
inputs (missing file, malformed content, a number document, a bare
array, an object with a `tasks` field). -/
theorem c6_loadTasks_error_tolerance_witness :
    loadTasks 7 .missing = [] ∧
    loadTasks 7 .invalid = [] ∧
    loadTasks 7 (.parsed (.num 3)) = [] ∧
    loadTasks 7 (.parsed (.arr [.obj []])) =
      (([.obj []] : List JValue).mapM (coerceTask 7)).getD [] ∧
    loadTasks 7 (.parsed (.obj [("tasks", .arr [.obj []])])) =
      loadTasks 7 (.parsed (.arr [.obj []])) :=
  ⟨(c6_loadTasks_error_tolerance 7).1,
   (c6_loadTasks_error_tolerance 7).2.1,
   (c6_loadTasks_error_tolerance 7).2.2.1 (.num 3)
     (fun _ h => JValue.noConfusion h)
     (fun _ h => Option.noConfusion h),
   (c6_loadTasks_error_tolerance 7).2.2.2.1 [.obj []],
   (c6_loadTasks_error_tolerance 7).2.2.2.2 [.obj []]⟩

theorem coerceFields_taskToJValue (now : Nat) (t : Task) (h : PersistedShape t) :
    coerceFields now (taskToJValue t) = t := by
  obtain ⟨hid, ⟨c, hc0, hcre⟩, hdt, hdf⟩ := h
  obtain ⟨id, text, done, createdAt, completedAt⟩ := t
  simp only at hid hcre hdt hdf
  have hfid : jgetField (taskToJValue ⟨id, text, done, createdAt, completedAt⟩) "id"
      = some id := rfl
  unfold coerceFields
  simp only [Task.mk.injEq]
  refine ⟨?_, ?_, ?_, ?_, ?_⟩
  · rw [hfid]
    rcases hid with ⟨n, rfl⟩ | ⟨s, rfl⟩
    · rfl
    · rfl
  · show jsToString (jsOr (some (.str text)) (.str "")) = text
    by_cases htxt : text = ""
    · subst htxt; rfl
    · show jsToString (if jsTruthy (.str text) then JValue.str text else .str "") = text
      rw [if_pos (show jsTruthy (.str text) = true by simp [jsTruthy, htxt])]
      rfl
  · show jsTruthy (jsOr (some (.bool done)) (.bool false)) = done
    cases done <;> rfl
  · show jsOr (some createdAt) (.num (now : Int)) = createdAt
    subst hcre
    show (if jsTruthy (.num c) then JValue.num c else .num (now : Int)) = JValue.num c
    rw [if_pos (show jsTruthy (.num c) = true by simp [jsTruthy, hc0])]
  · show (if jsTruthy (jsOr (some (.bool done)) (.bool false)) then
        jsOr (some completedAt) (.num (now : Int)) else .null) = completedAt
    cases done with
    | false => exact (hdf rfl).symm
    | true =>
      obtain ⟨m, hm0, hcom⟩ := hdt rfl
      subst hcom
      show (if jsTruthy (.num m) then JValue.num m else .num (now : Int)) = JValue.num m
      rw [if_pos (show jsTruthy (.num m) = true by simp [jsTruthy, hm0])]

/-- C7 (amended): for a collection whose tasks all have the persisted
field types — `id` a number or string, `text` a string, `done` a
boolean, `createdAt` a truthy epoch-ms number, and `completedAt` a
truthy (nonzero) epoch-ms number exactly when `done` is true and null
otherwise — saving and re-loading returns the collection
field-for-field unchanged. -/
theorem c7_save_load_roundtrip (now : Nat) (tasks : List Task)
    (hgood : ∀ t ∈ tasks, PersistedShape t) :
    loadTasks now (.parsed (saveDoc tasks)) = tasks := by
  have h1 : loadTasks now (.parsed (saveDoc tasks)) =
      (match (tasks.map taskToJValue).mapM (coerceTask now) with
       | some ts => ts
       | none => []) := rfl
  have hmapM : ∀ (ts : List Task), (∀ t ∈ ts, PersistedShape t) →
      (ts.map taskToJValue).mapM (coerceTask now) = some ts := by
    intro ts
    induction ts with
    | nil => intro _; rfl
    | cons t ts ih =>
      intro hts
      have hct : coerceTask now (taskToJValue t) = some t := by
        have : coerceTask now (taskToJValue t) = some (coerceFields now (taskToJValue t)) := rfl
        rw [this, coerceFields_taskToJValue now t (hts t (List.mem_cons_self t ts))]
      rw [List.map_cons, List.mapM_cons, hct,
        ih (fun x hx => hts x (List.mem_cons_of_mem t hx))]
      rfl
  rw [h1, hmapM tasks hgood]

/-- C7 witness: the round trip evaluated on a concrete well-formed
collection. -/
theorem c7_save_load_roundtrip_witness :
    loadTasks 1000 (.parsed (saveDoc [⟨.num 1, "x", true, .num 2, .num 7⟩])) =
      [⟨.num 1, "x", true, .num 2, .num 7⟩] :=
  c7_save_load_roundtrip 1000 [⟨.num 1, "x", true, .num 2, .num 7⟩]
    (by
      intro t ht
      rw [List.mem_singleton.mp ht]
      exact ⟨Or.inl ⟨1, rfl⟩, ⟨2, by omega, rfl⟩,
        fun _ => ⟨7, by omega, rfl⟩, fun hc => Bool.noConfusion hc⟩)

/-- C7 counterexample: the task `{id: 1, text: "x", done: true,
createdAt: 2, completedAt: 0}` has all five fields populated with the
persisted types (`0` is an epoch-ms number), yet saving and re-loading
at load time `1000` replaces `completedAt` by the load time, so the
round trip is not field-for-field exact. -/
theorem c7_counterexample :
    loadTasks 1000 (.parsed (saveDoc [⟨.num 1, "x", true, .num 2, .num 0⟩])) =
      [⟨.num 1, "x", true, .num 2, .num 1000⟩] ∧
    loadTasks 1000 (.parsed (saveDoc [⟨.num 1, "x", true, .num 2, .num 0⟩])) ≠
      [⟨.num 1, "x", true, .num 2, .num 0⟩] := by
  refine ⟨rfl, ?_⟩
  intro h
  have h2 : ([⟨.num 1, "x", true, .num 2, .num 1000⟩] : List Task) =
      [⟨.num 1, "x", true, .num 2, .num 0⟩] := h
  have h3 := List.cons.inj h2
  have h4 : JValue.num 1000 = JValue.num 0 := congrArg Task.completedAt h3.1
  have h5 : (1000 : Int) = 0 := JValue.num.inj h4
  omega

theorem skipWSBack_le (s : List Char) : ∀ i, skipWSBack s i ≤ i := by
  intro i
  induction i with
  | zero => exact Nat.le_refl 0
  | succ j ih =>
    unfold skipWSBack
    by_cases h : jsWS (s.getD (j + 1) ' ') = true
    · rw [if_pos h]
      exact Nat.le_trans ih (Nat.le_succ j)
    · rw [if_neg h]

theorem skipWSBack_post (s : List Char) :
    ∀ i, skipWSBack s i = 0 ∨ jsWS (s.getD (skipWSBack s i) ' ') = false := by
  intro i
  induction i with
  | zero => exact Or.inl rfl
  | succ j ih =>
    unfold skipWSBack
    by_cases h : jsWS (s.getD (j + 1) ' ') = true
    · rw [if_pos h]
      exact ih
    · rw [if_neg h]
      exact Or.inr (Bool.not_eq_true _ ▸ h)

theorem skipWordBack_le (s : List Char) : ∀ i, skipWordBack s i ≤ i := by
  intro i
  induction i with
  | zero => exact Nat.le_refl 0
  | succ j ih =>
    unfold skipWordBack
    by_cases h : (!jsWS (s.getD j ' ')) = true
    · rw [if_pos h]
      exact Nat.le_trans ih (Nat.le_succ j)
    · rw [if_neg h]

theorem skipWordBack_post (s : List Char) :
    ∀ i, skipWordBack s i = 0 ∨ jsWS (s.getD (skipWordBack s i - 1) ' ') = true := by
  intro i
  induction i with
  | zero => exact Or.inl rfl
  | succ j ih =>
    unfold skipWordBack
    by_cases h : (!jsWS (s.getD j ' ')) = true
    · rw [if_pos h]
      exact ih
    · rw [if_neg h]
      refine Or.inr ?_
      have : jsWS (s.getD j ' ') = true := by
        rcases hb : jsWS (s.getD j ' ') with _ | _
        · exact absurd (hb ▸ rfl) h
        · rfl
      simpa using this

theorem skipWordBack_keeps (s : List Char) :
    ∀ i, (i = 0 ∨ jsWS (s.getD i ' ') = false) →
      (skipWordBack s i = 0 ∨ jsWS (s.getD (skipWordBack s i) ' ') = false) := by
  intro i
  induction i with
  | zero => intro _; exact Or.inl rfl
  | succ j ih =>
    intro hin
    unfold skipWordBack
    by_cases h : (!jsWS (s.getD j ' ')) = true
    · rw [if_pos h]
      exact ih (Or.inr (by simpa using h))
    · rw [if_neg h]
      rcases hin with h0 | hws
      · exact absurd h0 (Nat.succ_ne_zero j)
      · exact Or.inr hws

theorem skipWSFwd_spec (s : List Char) :
    ∀ (fuel i : Nat), s.length - i ≤ fuel → i ≤ s.length →
      i ≤ skipWSFwd s i ∧ skipWSFwd s i ≤ s.length ∧
        (skipWSFwd s i = s.length ∨ jsWS (s.getD (skipWSFwd s i) ' ') = false) := by
  intro fuel
  induction fuel with
  | zero =>
    intro i hf hi
    have hie : i = s.length := by omega
    have hstep : skipWSFwd s i = i := by
      rw [skipWSFwd, dif_neg]
      intro hcon
      omega
    rw [hstep]
    exact ⟨Nat.le_refl i, hi, Or.inl hie⟩
  | succ n ih =>
    intro i hf hi
    by_cases hc : i < s.length ∧ jsWS (s.getD i ' ') = true
    · have hstep : skipWSFwd s i = skipWSFwd s (i + 1) := by
        rw [skipWSFwd, dif_pos hc]
      obtain ⟨ha, hb, hcc⟩ := ih (i + 1) (by omega) (by omega)
      rw [hstep]
      exact ⟨Nat.le_trans (Nat.le_succ i) ha, hb, hcc⟩
    · have hstep : skipWSFwd s i = i := by
        rw [skipWSFwd, dif_neg hc]
      rw [hstep]
      refine ⟨Nat.le_refl i, hi, ?_⟩
      by_cases hlen : i < s.length
      · refine Or.inr ?_
        rcases hb : jsWS (s.getD i ' ') with _ | _
        · rfl
        · exact absurd ⟨hlen, hb⟩ hc
      · exact Or.inl (by omega)

theorem skipWordFwd_spec (s : List Char) :
    ∀ (fuel i : Nat), s.length - i ≤ fuel → i ≤ s.length →
      i ≤ skipWordFwd s i ∧ skipWordFwd s i ≤ s.length ∧
        (skipWordFwd s i = s.length ∨ jsWS (s.getD (skipWordFwd s i) ' ') = true) ∧
        (skipWordFwd s i = i ∨ jsWS (s.getD (skipWordFwd s i - 1) ' ') = false) := by
  intro fuel
  induction fuel with
  | zero =>
    intro i hf hi
    have hie : i = s.length := by omega
    have hstep : skipWordFwd s i = i := by
      rw [skipWordFwd, dif_neg]
      intro hcon
      omega
    rw [hstep]
    exact ⟨Nat.le_refl i, hi, Or.inl hie, Or.inl rfl⟩
  | succ n ih =>
    intro i hf hi
    by_cases hc : i < s.length ∧ (!jsWS (s.getD i ' ')) = true
    · have hstep : skipWordFwd s i = skipWordFwd s (i + 1) := by
        rw [skipWordFwd, dif_pos hc]
      obtain ⟨ha, hb, hcc, hd⟩ := ih (i + 1) (by omega) (by omega)
      rw [hstep]
      refine ⟨Nat.le_trans (Nat.le_succ i) ha, hb, hcc, ?_⟩
      rcases hd with heq | hws
      · rw [heq]
        refine Or.inr ?_
        simpa using hc.2
      · exact Or.inr hws
    · have hstep : skipWordFwd s i = i := by
        rw [skipWordFwd, dif_neg hc]
      rw [hstep]
      refine ⟨Nat.le_refl i, hi, ?_, Or.inl rfl⟩
      by_cases hlen : i < s.length
      · refine Or.inr ?_
        rcases hb : jsWS (s.getD i ' ') with _ | _
        · exact absurd ⟨hlen, by rw [hb]; rfl⟩ hc
        · rfl
      · exact Or.inl (by omega)

theorem wordLeft_boundary (s : List Char) (pos : Nat) :
    isBoundary s (wordLeft s pos) := by
  unfold wordLeft
  rcases skipWordBack_post s (skipWSBack s (pos - 1)) with h0 | hws1
  · exact Or.inl h0
  · rcases skipWordBack_keeps s (skipWSBack s (pos - 1))
      (skipWSBack_post s (pos - 1)) with h0 | hws2
    · exact Or.inl h0
    · refine Or.inr (Or.inr ?_)
      rw [hws1, hws2]
      exact Bool.noConfusion

theorem wordRight_boundary (s : List Char) (pos : Nat) :
    isBoundary s (wordRight s pos) := by
  unfold wordRight
  have hmin : min s.length (pos + 1) ≤ s.length := Nat.min_le_left _ _
  obtain ⟨_, hc2, hc3⟩ :=
    skipWSFwd_spec s (s.length - min s.length (pos + 1)) (min s.length (pos + 1))
      (Nat.le_refl _) hmin
  obtain ⟨_, _, hr3, hr4⟩ :=
    skipWordFwd_spec s (s.length - skipWSFwd s (min s.length (pos + 1)))
      (skipWSFwd s (min s.length (pos + 1))) (Nat.le_refl _) hc2
  rcases hr3 with hlen | hws
  · exact Or.inr (Or.inl hlen)
  · rcases hr4 with heq | hprev
    · rcases hc3 with hclen | hcws
      · exact Or.inr (Or.inl (heq.trans hclen))
      · rw [heq] at hws
        rw [hws] at hcws
        exact Bool.noConfusion hcws
    · refine Or.inr (Or.inr ?_)
      rw [hprev, hws]
      exact Bool.noConfusion

/-- C9: from every cursor position of the buffer, `wordLeft`
(Ctrl+Left) and `wordRight` (Ctrl+Right) land exactly on a
whitespace/non-whitespace boundary or at a buffer edge (0 or length);
in particular applying `wordLeft` and then `wordRight` again lands on
a boundary or edge. -/
theorem c9_word_nav_boundary (s : List Char) (pos : Nat) (_hpos : pos ≤ s.length) :
    isBoundary s (wordLeft s pos) ∧ isBoundary s (wordRight s pos) ∧
    isBoundary s (wordRight s (wordLeft s pos)) :=
  ⟨wordLeft_boundary s pos, wordRight_boundary s pos,
   wordRight_boundary s (wordLeft s pos)⟩

/-- C9 witness: the boundary property evaluated on the buffer
`"ab cd"` from the mid-word cursor position 4. -/
theorem c9_word_nav_boundary_witness :
    isBoundary "ab cd".data (wordLeft "ab cd".data 4) ∧
    isBoundary "ab cd".data (wordRight "ab cd".data 4) ∧
    isBoundary "ab cd".data (wordRight "ab cd".data (wordLeft "ab cd".data 4)) :=
  c9_word_nav_boundary "ab cd".data 4 (by decide)

/-- C10: submitting the edit input with a buffer that trims to the
empty string leaves the task collection unchanged (in particular the
edited task keeps its previous text), and an edit submit never turns a
task's nonempty text into the empty string. -/
theorem c10_edit_empty_preserves (tasks : List Task) (idx : Nat) (buffer : String) :
    (jsTrim buffer = "" → editTasks (some idx) (jsTrim buffer) tasks = tasks) ∧
    (∀ (i : Nat) (h : i < tasks.length)
      (h2 : i < (editTasks (some idx) (jsTrim buffer) tasks).length),
      ((editTasks (some idx) (jsTrim buffer) tasks).get ⟨i, h2⟩).text = "" →
      (tasks.get ⟨i, h⟩).text = "") := by
  constructor
  · intro he
    unfold editTasks
    rw [he]
    have hf : ∀ (i : Nat) (t : Task), editOne (some idx) "" i t = t := by
      intro i t
      unfold editOne
      by_cases hc : some i = some idx
      · rw [if_pos hc, if_pos rfl]
      · rw [if_neg hc]
    exact jsMapIdx_go_id _ hf tasks 0
  · intro i h h2 htext
    unfold editTasks at htext h2
    rw [jsMapIdx_get _ tasks i h h2] at htext
    unfold editOne at htext
    by_cases hc : some i = some idx
    · rw [if_pos hc] at htext
      by_cases he : jsTrim buffer = ""
      · rw [if_pos he] at htext
        exact htext
      · rw [if_neg he] at htext
        exact absurd htext he
    · rw [if_neg hc] at htext
      exact htext

/-- C10 witness: the two parts evaluated on a one-task collection with
a whitespace-only buffer. -/
theorem c10_edit_empty_preserves_witness :
    (jsTrim "  " = "" → editTasks (some 0) (jsTrim "  ") [newTask 3 "keep"] = [newTask 3 "keep"]) ∧
    (∀ (i : Nat) (h : i < ([newTask 3 "keep"] : List Task).length)
      (h2 : i < (editTasks (some 0) (jsTrim "  ") [newTask 3 "keep"]).length),
      ((editTasks (some 0) (jsTrim "  ") [newTask 3 "keep"]).get ⟨i, h2⟩).text = "" →
      (([newTask 3 "keep"] : List Task).get ⟨i, h⟩).text = "") :=
  c10_edit_empty_preserves [newTask 3 "keep"] 0 "  "

theorem jsTruthy_ne_null {v : JValue} (h : jsTruthy v = true) : v ≠ JValue.null := by
  intro he
  subst he
  exact Bool.noConfusion h

theorem jsOr_num_ne_null (x : Option JValue) (k : Int) :
    jsOr x (.num k) ≠ JValue.null := by
  cases x with
  | none => exact fun h => JValue.noConfusion h
  | some w =>
    show (if jsTruthy w then w else JValue.num k) ≠ JValue.null
    by_cases hw : jsTruthy w = true
    · rw [if_pos hw]
      exact jsTruthy_ne_null hw
    · rw [if_neg hw]
      exact fun h => JValue.noConfusion h

theorem coerceFields_inv (now : Nat) (v : JValue) :
    ((coerceFields now v).completedAt ≠ JValue.null ↔ (coerceFields now v).done = true) := by
  have hdone : (coerceFields now v).done =
      jsTruthy (jsOr (jgetField v "done") (.bool false)) := rfl
  have hcom : (coerceFields now v).completedAt =
      (if jsTruthy (jsOr (jgetField v "done") (.bool false)) then
        jsOr (jgetField v "completedAt") (.num (now : Int)) else .null) := rfl
  rw [hdone, hcom]
  by_cases hd : jsTruthy (jsOr (jgetField v "done") (.bool false)) = true
  · rw [if_pos hd, hd]
    simp only [iff_true]
    exact jsOr_num_ne_null _ _
  · rw [if_neg hd]
    have hd' : jsTruthy (jsOr (jgetField v "done") (.bool false)) = false :=
      Bool.not_eq_true _ ▸ hd
    rw [hd']
    simp

theorem coerceTask_inv (now : Nat) (v : JValue) (t : Task)
    (h : coerceTask now v = some t) :
    (t.completedAt ≠ JValue.null ↔ t.done = true) := by
  cases v
  case null => exact Option.noConfusion h
  all_goals exact (Option.some.inj h) ▸ coerceFields_inv now _

theorem mapM_coerce_inv (now : Nat) :
    ∀ (l : List JValue) (ts : List Task),
      l.mapM (coerceTask now) = some ts → TasksInv ts := by
  intro l
  induction l with
  | nil =>
    intro ts h
    have hts : some ([] : List Task) = some ts := h
    obtain rfl := Option.some.inj hts
    intro t ht
    exact absurd ht (List.not_mem_nil t)
  | cons v l ih =>
    intro ts h
    rw [List.mapM_cons] at h
    rcases hc : coerceTask now v with _ | t
    · rw [hc] at h
      simp at h
    · rw [hc] at h
      rcases hm : l.mapM (coerceTask now) with _ | ts'
      · rw [hm] at h
        simp at h
      · rw [hm] at h
        have h2 : some (t :: ts') = some ts := h
        obtain rfl := Option.some.inj h2
        intro x hx
        rcases List.mem_cons.mp hx with rfl | hx'
        · exact coerceTask_inv now v x hc
        · exact ih ts' hm x hx'

theorem loadTasks_inv (now : Nat) (fr : FileRead) : TasksInv (loadTasks now fr) := by
  have h1 : ∀ (l : List JValue), TasksInv
      (match l.mapM (coerceTask now) with
       | some ts => ts
       | none => ([] : List Task)) := by
    intro l
    rcases m : l.mapM (coerceTask now) with _ | ts
    · intro t ht
      exact absurd ht (List.not_mem_nil t)
    · exact mapM_coerce_inv now l ts m
  cases fr with
  | missing => intro t ht; exact absurd ht (List.not_mem_nil t)
  | invalid => intro t ht; exact absurd ht (List.not_mem_nil t)
  | parsed v =>
    exact h1 (match v with
      | .arr l => l
      | _ =>
        match (if jsTruthy v then jgetField v "tasks" else none) with
        | some (.arr l) => l
        | _ => [])

theorem toggleTasks_inv (now sel : Nat) {ts : List Task} (h : TasksInv ts) :
    TasksInv (toggleTasks now sel ts) := by
  intro x hx
  obtain ⟨i, y, hy, rfl⟩ := jsMapIdx_mem _ _ _ hx
  unfold toggleOne
  by_cases hc : i = sel
  · rw [if_pos hc]
    cases hd : y.done
    · simp [hd]
    · simp [hd]
  · rw [if_neg hc]
    exact h y hy

theorem editTasks_inv (idx : Option Nat) (text : String) {ts : List Task}
    (h : TasksInv ts) : TasksInv (editTasks idx text ts) := by
  intro x hx
  obtain ⟨i, y, hy, rfl⟩ := jsMapIdx_mem _ _ _ hx
  unfold editOne
  by_cases hc : some i = idx
  · rw [if_pos hc]
    exact h y hy
  · rw [if_neg hc]
    exact h y hy

theorem newTask_inv (now : Nat) (text : String) :
    ((newTask now text).completedAt ≠ JValue.null ↔ (newTask now text).done = true) := by
  unfold newTask
  simp

theorem applyChange_inv {s : AppState} {next : List Task}
    (h : StateInv s) (hn : TasksInv next) : StateInv (applyChange next s) := by
  refine ⟨hn, ?_, ?_⟩
  · intro x hx
    rcases mem_pushHistory hx with h1 | rfl
    · exact h.2.1 x h1
    · exact h.1
  · intro x hx
    exact absurd hx (List.not_mem_nil x)

theorem undo_inv {s : AppState} (h : StateInv s) : StateInv (undo s) := by
  unfold undo
  rcases hg : s.history.getLast? with _ | prev
  · exact h
  · refine ⟨h.2.1 prev (List.mem_of_mem_getLast? hg), ?_, ?_⟩
    · intro x hx
      exact h.2.1 x (List.mem_of_mem_dropLast hx)
    · intro x hx
      rcases List.mem_append.mp hx with h1 | h1
      · exact h.2.2 x h1
      · rw [List.mem_singleton.mp h1]
        exact h.1

theorem redo_inv {s : AppState} (h : StateInv s) : StateInv (redo s) := by
  unfold redo
  rcases hg : s.future.getLast? with _ | next
  · exact h
  · refine ⟨h.2.2 next (List.mem_of_mem_getLast? hg), ?_, ?_⟩
    · intro x hx
      rcases List.mem_append.mp hx with h1 | h1
      · exact h.2.1 x h1
      · rw [List.mem_singleton.mp h1]
        exact h.1
    · intro x hx
      exact h.2.2 x (List.mem_of_mem_dropLast hx)

theorem onSpace_inv (now : Nat) {s : AppState} (h : StateInv s) :
    StateInv (onSpace now s) := by
  unfold onSpace
  by_cases hm : s.mode ≠ Mode.list
  · rw [if_pos hm]
    exact h
  · rw [if_neg hm]
    by_cases hl : s.tasks.length > 0
    · rw [if_pos hl]
      exact applyChange_inv h (toggleTasks_inv now (selectedSafe s) h.1)
    · rw [if_neg hl]
      exact h

theorem addSubmit_inv (now : Nat) {s : AppState} (h : StateInv s) :
    StateInv (addSubmit now s) := by
  unfold addSubmit
  by_cases hm : s.mode ≠ Mode.add
  · rw [if_pos hm]
    exact h
  · rw [if_neg hm]
    have happ : TasksInv (s.tasks ++ [newTask now (jsTrim s.addValue)]) := by
      intro x hx
      rcases List.mem_append.mp hx with h1 | h1
      · exact h.1 x h1
      · rw [List.mem_singleton.mp h1]
        exact newTask_inv now _
    by_cases ht : jsTrim s.addValue = ""
    · simp only [ht, ne_eq, not_true_eq_false, if_false, ite_false]
      exact h
    · simp only [ne_eq, ht, not_false_eq_true, if_true, ite_true]
      exact applyChange_inv h happ

theorem editSubmit_inv {s : AppState} (h : StateInv s) : StateInv (editSubmit s) := by
  unfold editSubmit
  by_cases hm : s.mode ≠ Mode.edit
  · rw [if_pos hm]
    exact h
  · rw [if_neg hm]
    exact applyChange_inv h (editTasks_inv s.editingIndex (jsTrim s.editValue) h.1)

theorem onDelete_inv {s : AppState} (h : StateInv s) : StateInv (onDelete s) := by
  unfold onDelete
  by_cases hm : s.mode ≠ Mode.list
  · rw [if_pos hm]
    exact h
  · rw [if_neg hm]
    by_cases hl : s.tasks.length > 0
    · rw [if_pos hl]
      exact applyChange_inv h (fun x hx => h.1 x (jsFilterIdx_mem _ _ x hx))
    · rw [if_neg hl]
      exact h

theorem settingsEnter_inv (now : Nat) (files : Storage → FileRead) {s : AppState}
    (h : StateInv s) : StateInv (settingsEnter now files s) := by
  unfold settingsEnter
  by_cases hm : s.mode ≠ Mode.settings
  · rw [if_pos hm]
    exact h
  · rw [if_neg hm]
    dsimp only
    by_cases hd : (if s.settingsIndex = 0 then Storage.project else Storage.global) ≠ s.storage
    · rw [if_pos hd]
      refine ⟨loadTasks_inv now _, ?_, ?_⟩
      · intro x hx
        rcases List.mem_append.mp hx with h1 | h1
        · exact h.2.1 x h1
        · rw [List.mem_singleton.mp h1]
          exact h.1
      · intro x hx
        exact absurd hx (List.not_mem_nil x)
    · rw [if_neg hd]
      exact h

theorem step_inv (a : Act) {s : AppState} (h : StateInv s) : StateInv (step a s) := by
  cases a with
  | space now => exact onSpace_inv now h
  | submitAdd now => exact addSubmit_inv now h
  | submitEdit => exact editSubmit_inv h
  | del => exact onDelete_inv h
  | undoKey =>
    show StateInv (if s.mode = .add ∨ s.mode = .edit then s else undo s)
    by_cases hm : s.mode = Mode.add ∨ s.mode = Mode.edit
    · rw [if_pos hm]; exact h
    · rw [if_neg hm]; exact undo_inv h
  | redoKey =>
    show StateInv (if s.mode = .add ∨ s.mode = .edit then s else redo s)
    by_cases hm : s.mode = Mode.add ∨ s.mode = Mode.edit
    · rw [if_pos hm]; exact h
    · rw [if_neg hm]; exact redo_inv h
  | commitSettings now files => exact settingsEnter_inv now files h
  | keyA =>
    show StateInv (enterAdd s)
    unfold enterAdd
    by_cases hm : s.mode = Mode.list
    · rw [if_pos hm]; exact h
    · rw [if_neg hm]; exact h
  | keyE =>
    show StateInv (enterEdit s)
    unfold enterEdit
    by_cases hm : s.mode = Mode.list ∧ s.tasks.length > 0
    · rw [if_pos hm]; exact h
    · rw [if_neg hm]; exact h
  | keyO =>
    show StateInv (openSettings s)
    unfold openSettings
    by_cases hm : s.mode = Mode.add ∨ s.mode = Mode.edit
    · rw [if_pos hm]; exact h
    · rw [if_neg hm]; exact h
  | escape =>
    show StateInv (cancelInput s)
    unfold cancelInput
    by_cases hm : s.mode = Mode.add
    · rw [if_pos hm]; exact h
    · rw [if_neg hm]
      by_cases hm2 : s.mode = Mode.edit
      · rw [if_pos hm2]; exact h
      · rw [if_neg hm2]; exact h
  | typeAdd buffer =>
    show StateInv (if s.mode = .add then { s with addValue := buffer } else s)
    by_cases hm : s.mode = Mode.add
    · rw [if_pos hm]; exact h
    · rw [if_neg hm]; exact h
  | typeEdit buffer =>
    show StateInv (if s.mode = .edit then { s with editValue := buffer } else s)
    by_cases hm : s.mode = Mode.edit
    · rw [if_pos hm]; exact h
    · rw [if_neg hm]; exact h
  | moveSel up =>
    show StateInv (if s.mode = .list then _ else s)
    by_cases hm : s.mode = Mode.list
    · rw [if_pos hm]; exact h
    · rw [if_neg hm]; exact h
  | moveSettings up =>
    show StateInv (if s.mode = .settings then _ else s)
    by_cases hm : s.mode = Mode.settings
    · rw [if_pos hm]; exact h
    · rw [if_neg hm]; exact h

theorem runActs_inv (acts : List Act) :
    ∀ {s : AppState}, StateInv s → StateInv (runActs acts s) := by
  induction acts with
  | nil => intro s h; exact h
  | cons a acts ih =>
    intro s h
    exact ih (step_inv a h)

theorem initState_inv (now : Nat) (preferred : FileRead) (now' : Nat) (boot : FileRead) :
    StateInv (initState now preferred now' boot) := by
  refine ⟨?_, ?_, ?_⟩
  · show TasksInv (if (loadTasks now preferred).length ≠ 0 then loadTasks now preferred
      else loadTasks now' boot)
    by_cases hl : (loadTasks now preferred).length ≠ 0
    · rw [if_pos hl]; exact loadTasks_inv now preferred
    · rw [if_neg hl]; exact loadTasks_inv now' boot
  · intro x hx
    exact absurd hx (List.not_mem_nil x)
  · intro x hx
    exact absurd hx (List.not_mem_nil x)

/-- C1: along every sequence of the public operations (toggle,
add-submit, edit-submit, delete, undo, redo, storage switch/load,
together with the mode, selection and typing actions that enable
them) from the startup state, every task of the live collection
satisfies: `completedAt` is non-null iff `done` is true.  Moreover a
toggle on a task with `done = false` sets `completedAt` to the toggle
time and `done` to true, and a toggle on a task with `done = true`
sets `completedAt` to null and `done` to false. -/
theorem c1_completedAt_iff_done :
    (∀ (now : Nat) (preferred : FileRead) (now' : Nat) (boot : FileRead)
      (acts : List Act),
      ∀ t ∈ (runActs acts (initState now preferred now' boot)).tasks,
        (t.completedAt ≠ JValue.null ↔ t.done = true)) ∧
    (∀ (now sel : Nat) (ts : List Task) (h : sel < ts.length)
      (h2 : sel < (toggleTasks now sel ts).length),
      ((ts.get ⟨sel, h⟩).done = false →
        ((toggleTasks now sel ts).get ⟨sel, h2⟩).completedAt = .num (now : Int) ∧
        ((toggleTasks now sel ts).get ⟨sel, h2⟩).done = true) ∧
      ((ts.get ⟨sel, h⟩).done = true →
        ((toggleTasks now sel ts).get ⟨sel, h2⟩).completedAt = .null ∧
        ((toggleTasks now sel ts).get ⟨sel, h2⟩).done = false)) := by
  constructor
  · intro now preferred now' boot acts
    exact (runActs_inv acts (initState_inv now preferred now' boot)).1
  · intro now sel ts h h2
    have hget : (toggleTasks now sel ts).get ⟨sel, h2⟩ =
        toggleOne now sel sel (ts.get ⟨sel, h⟩) :=
      jsMapIdx_get (toggleOne now sel) ts sel h h2
    rw [hget]
    unfold toggleOne
    rw [if_pos rfl]
    constructor
    · intro hd
      rw [hd]
      exact ⟨rfl, rfl⟩
    · intro hd
      rw [hd]
      exact ⟨rfl, rfl⟩

/-- C1 witness: the invariant evaluated on the concrete state reached
by loading the one-record document `[{}]` and toggling it at time 5;
the toggle clauses evaluated on the corresponding one-task collection. -/
theorem c1_completedAt_iff_done_witness :
    ((⟨.num 7, "", true, .num 7, .num 5⟩ : Task).completedAt ≠ JValue.null ↔
      (⟨.num 7, "", true, .num 7, .num 5⟩ : Task).done = true) ∧
    (((⟨.num 7, "", false, .num 7, .null⟩ : Task).done = false →
      ((toggleTasks 5 0 [⟨.num 7, "", false, .num 7, .null⟩]).get
        ⟨0, by decide⟩).completedAt = .num (5 : Int) ∧
      ((toggleTasks 5 0 [⟨.num 7, "", false, .num 7, .null⟩]).get
        ⟨0, by decide⟩).done = true) ∧
    ((⟨.num 7, "", false, .num 7, .null⟩ : Task).done = true →
      ((toggleTasks 5 0 [⟨.num 7, "", false, .num 7, .null⟩]).get
        ⟨0, by decide⟩).completedAt = .null ∧
      ((toggleTasks 5 0 [⟨.num 7, "", false, .num 7, .null⟩]).get
        ⟨0, by decide⟩).done = false)) := by
  constructor
  · exact c1_completedAt_iff_done.1 7 (.parsed (.arr [.obj []])) 7 .missing
      [.space 5] ⟨.num 7, "", true, .num 7, .num 5⟩
      (by
        have hrun : (runActs [Act.space 5]
            (initState 7 (.parsed (.arr [.obj []])) 7 .missing)).tasks =
            [⟨.num 7, "", true, .num 7, .num 5⟩] := rfl
        rw [hrun]
        exact List.mem_singleton_self _)
  · exact c1_completedAt_iff_done.2 5 0 [⟨.num 7, "", false, .num 7, .null⟩]
      (by decide) (by decide)

end InkNotex
